import Mathlib

/-!
Shallow embedding of the dev-log synchronization core: the GitLab
merge-request to Notion-database sync job.  Data model and operations are
translated from the TypeScript sources: the Notion wrapper
(withRetry, createOrUpdatePage, findPageByUniqueKey, queryDatabase in
lib/notion.ts), the record mapper and sync loop
(mapMrToNotionProperties, syncMrToNotion in jobs/syncMrNotion.ts), the
GitLab wrapper validation (validateDateRange, listMergedMrs in
lib/gitlab.ts) and the CLI dispatch (runJob in jobs/index.ts, main in
jobs/syncMrNotion.ts).  JavaScript numbers used as counters, ids and
timestamps are modelled as Nat or Int; JavaScript Date values are
modelled by their epoch-millisecond time value.  Nullable or optional
fields are modelled as Option; JavaScript truthiness of a nullable
string is explicit: the empty string and null are falsy.
-/

namespace DevLog

/-- Property name constant for the mapped Title property. -/
def titleKey : String := "Title"

/-- Property name constant for the mapped Author property. -/
def authorKey : String := "Author"

/-- Property name constant for the mapped Merged Date property. -/
def mergedDateKey : String := "Merged Date"

/-- Property name constant for the mapped URL property. -/
def urlKey : String := "URL"

/-- Property name constant for the mapped State property. -/
def stateKey : String := "State"

/-- Property name constant for the mapped Source Branch property. -/
def sourceBranchKey : String := "Source Branch"

/-- Property name constant for the mapped Target Branch property. -/
def targetBranchKey : String := "Target Branch"

/-- Property name constant for the mapped Created Date property. -/
def createdDateKey : String := "Created Date"

/-- Property name constant for the mapped Updated Date property. -/
def updatedDateKey : String := "Updated Date"

/-- Property name constant for the mapped Labels property. -/
def labelsKey : String := "Labels"

/-- DEFAULT_UNIQUE_KEY_PROP from lib/notion.ts. -/
def DEFAULT_UNIQUE_KEY_PROP : String := "Unique Key"

/-- A GitLab label is either a bare string or an object carrying a name,
per the labels field of the MergeRequest interface in lib/gitlab.ts. -/
inductive Label where
  | str (s : String)
  | obj (name : String)
deriving Repr, DecidableEq

/-- The name of a label: the string itself for a bare string, the name
field for an object (the normalization inside mapMrToNotionProperties). -/
def labelName : Label → String
  | Label.str s => s
  | Label.obj n => n

/-- The author sub-object of a merge request (lib/gitlab.ts). -/
structure MrAuthor where
  id : Nat
  name : String
  username : String
deriving Repr, DecidableEq

/-- The MergeRequest interface from lib/gitlab.ts.  Timestamps are the
ISO strings delivered by the API; merged_at and closed_at are nullable;
labels is optional. -/
structure MergeRequest where
  id : Nat
  iid : Nat
  title : String
  description : String
  state : String
  merged_at : Option String
  closed_at : Option String
  created_at : String
  updated_at : String
  target_branch : String
  source_branch : String
  author : MrAuthor
  web_url : String
  labels : Option (List Label)
deriving Repr, DecidableEq

/-- A Notion property value, covering the variants produced by the
mapper and consumed by the store (title, rich_text, date, url, select,
multi_select). -/
inductive PropValue where
  | title (content : String)
  | richText (content : String)
  | date (start : String)
  | url (u : String)
  | select (name : String)
  | multiSelect (names : List String)
deriving Repr, DecidableEq

/-- A properties object: an association list of property name to value.
JavaScript objects have unique keys; the list model admits duplicates,
so theorems that need uniqueness state it as a hypothesis. -/
abbrev PropertiesMap := List (String × PropValue)

/-- Read a property by name (JavaScript property access: first, and in a
real object only, binding for the name). -/
def getProp : PropertiesMap → String → Option PropValue
  | [], _ => none
  | (n, v) :: rest, name => if n = name then some v else getProp rest name

/-- Set a property by name, JavaScript-object style: an existing key is
overwritten in place, a new key is appended at the end. -/
def setProp (props : PropertiesMap) (name : String) (v : PropValue) : PropertiesMap :=
  if props.any (fun kv => kv.1 == name) then
    props.map (fun kv => if kv.1 = name then (name, v) else kv)
  else props ++ [(name, v)]

/-- Apply a payload of property writes onto a base object, left to
right: the semantics of the Notion pages.update call, which replaces
exactly the properties named in the payload and keeps the rest. -/
def mergeProps (base payload : PropertiesMap) : PropertiesMap :=
  payload.foldl (fun acc kv => setProp acc kv.1 kv.2) base

/-- mapMrToNotionProperties from jobs/syncMrNotion.ts.  Always sets
Title, Author, URL, State, Source Branch, Target Branch, Created Date
and Updated Date; sets Merged Date when mr.merged_at is truthy (non-null
and non-empty); sets Labels when mr.labels is an array (present), even
an empty one, normalizing each label to its name.  Insertion order
follows the source. -/
def mapMrToNotionProperties (mr : MergeRequest) : PropertiesMap :=
  [(titleKey, PropValue.title mr.title),
   (authorKey, PropValue.richText mr.author.name)]
  ++ (match mr.merged_at with
      | some s => if s = "" then [] else [(mergedDateKey, PropValue.date s)]
      | none => [])
  ++ [(urlKey, PropValue.url mr.web_url),
      (stateKey, PropValue.select mr.state),
      (sourceBranchKey, PropValue.richText mr.source_branch),
      (targetBranchKey, PropValue.richText mr.target_branch),
      (createdDateKey, PropValue.date mr.created_at),
      (updatedDateKey, PropValue.date mr.updated_at)]
  ++ (match mr.labels with
      | some ls => [(labelsKey, PropValue.multiSelect (ls.map labelName))]
      | none => [])

/-- An error value as inspected by withRetry in lib/notion.ts: an
HTTP-like status, an SDK error code, and a message. -/
structure JsError where
  status : Option Nat
  code : Option String
  message : String
deriving Repr, DecidableEq

/-- Decidable equality for Except values, used to state and decide
concrete facts about call outcomes. -/
instance instDecidableEqExcept {ε α : Type} [DecidableEq ε] [DecidableEq α] :
    DecidableEq (Except ε α) := fun x y =>
  match x, y with
  | Except.ok a, Except.ok b =>
    if h : a = b then isTrue (by rw [h])
    else isFalse (by intro hc; injection hc; exact h (by assumption))
  | Except.ok _, Except.error _ => isFalse (by intro hc; exact Except.noConfusion hc)
  | Except.error _, Except.ok _ => isFalse (by intro hc; exact Except.noConfusion hc)
  | Except.error e, Except.error f =>
    if h : e = f then isTrue (by rw [h])
    else isFalse (by intro hc; injection hc; exact h (by assumption))

/-- RATE_LIMIT_STATUS from lib/notion.ts. -/
def RATE_LIMIT_STATUS : Nat := 429

/-- The Notion SDK rate-limit error code string. -/
def rateLimitedCode : String := "rate_limited"

/-- The rate-limit signal test inside withRetry: err.status equals 429
or err.code equals the rate-limited code. -/
def isRateLimited (e : JsError) : Bool :=
  e.status == some RATE_LIMIT_STATUS || e.code == some rateLimitedCode

/-- DEFAULT_MAX_RETRIES from lib/notion.ts. -/
def DEFAULT_MAX_RETRIES : Nat := 5

/-- DEFAULT_BASE_DELAY from lib/notion.ts (milliseconds). -/
def DEFAULT_BASE_DELAY : Nat := 1000

/-- Observable trace of one withRetry call: the final result, how many
times the operation was invoked, the sleep durations of the performed
retries in order, and how many warning logs were emitted (the source
emits exactly one warning per retry, just before sleeping). -/
structure RetryTrace (α : Type) where
  result : Except JsError α
  attempts : Nat
  delays : List Nat
  warnCount : Nat
deriving Repr, DecidableEq

/-- The loop body of withRetry in lib/notion.ts.  The source iterates
attempt = 0 .. maxRetries; here remaining = maxRetries - attempt, so
remaining = 0 exactly when attempt = maxRetries and no retry is allowed.
On success the loop returns; on a rate-limited failure with attempts
remaining it warns, sleeps baseDelay * 2 ^ attempt and retries; on any
other failure, or when attempts are exhausted, it rethrows the last
error unchanged. -/
def withRetryFrom {α : Type} (op : Nat → Except JsError α) (baseDelay : Nat) :
    Nat → Nat → RetryTrace α
  | attempt, remaining =>
    match op attempt with
    | Except.ok v => ⟨Except.ok v, 1, [], 0⟩
    | Except.error e =>
      match remaining with
      | 0 => ⟨Except.error e, 1, [], 0⟩
      | r + 1 =>
        if isRateLimited e then
          let rest := withRetryFrom op baseDelay (attempt + 1) r
          ⟨rest.result, rest.attempts + 1,
            baseDelay * 2 ^ attempt :: rest.delays, rest.warnCount + 1⟩
        else ⟨Except.error e, 1, [], 0⟩

/-- withRetry from lib/notion.ts: run the loop from attempt 0 with
maxRetries retries remaining. -/
def withRetry {α : Type} (op : Nat → Except JsError α) (maxRetries baseDelay : Nat) :
    RetryTrace α :=
  withRetryFrom op baseDelay 0 maxRetries

/-- A page stored in the Notion database: the opaque id assigned by the
store and its properties. -/
structure Page where
  id : Nat
  props : PropertiesMap
deriving Repr, DecidableEq

/-- The target database: its pages in creation order, plus the next
fresh page id.  This models the external document store as the
query/create/update service the wrapper calls. -/
structure Store where
  pages : List Page
  nextId : Nat
deriving Repr, DecidableEq

/-- The query filter used by findPageByUniqueKey: the designated
unique-key property is a title equal to the given string. -/
def pageMatches (ukProp key : String) (p : Page) : Bool :=
  match getProp p.props ukProp with
  | some (PropValue.title c) => c == key
  | _ => false

/-- databases.query with the title-equals filter and page_size 1: all
matching pages, truncated to one result. -/
def queryByUniqueKey (ukProp key : String) (s : Store) : List Page :=
  (s.pages.filter (pageMatches ukProp key)).take 1

/-- findPageByUniqueKey from lib/notion.ts: the first query result, or
none when the result list is empty. -/
def findPageByUniqueKey (ukProp key : String) (s : Store) : Option Page :=
  match queryByUniqueKey ukProp key s with
  | [] => none
  | p :: _ => some p

/-- pages.create: append a fresh page holding the given properties. -/
def createPage (s : Store) (props : PropertiesMap) : Store :=
  { pages := s.pages ++ [{ id := s.nextId, props := props }], nextId := s.nextId + 1 }

/-- pages.update: replace the named properties of the page with the
given id, leaving its other properties and its id unchanged. -/
def updatePageProps (s : Store) (pid : Nat) (payload : PropertiesMap) : Store :=
  { s with
    pages := s.pages.map fun p =>
      if p.id = pid then { p with props := mergeProps p.props payload } else p }

/-- createOrUpdatePage from lib/notion.ts: look up an existing page by
the unique key; update it in place when found, otherwise create a new
page whose properties are the payload with the unique-key property set
to the key (the source spreads the payload then writes the unique-key
field, so the unique-key binding wins). -/
def createOrUpdatePage (ukProp key : String) (payload : PropertiesMap) (s : Store) : Store :=
  match findPageByUniqueKey ukProp key s with
  | some existing => updatePageProps s existing.id payload
  | none => createPage s (setProp payload ukProp (PropValue.title key))

/-- Number of pages whose unique-key property equals the given key. -/
def countKey (ukProp key : String) (s : Store) : Nat :=
  (s.pages.filter (pageMatches ukProp key)).length

/-- The sync key for a merge request, MR- followed by the iid. -/
def mrKey (mr : MergeRequest) : String := "MR-" ++ toString mr.iid

/-- One iteration of the sync loop on the store side: upsert the mapped
record under its sync key. -/
def upsertRecord (ukProp : String) (s : Store) (mr : MergeRequest) : Store :=
  createOrUpdatePage ukProp (mrKey mr) (mapMrToNotionProperties mr) s

/-- The store-side effect of one engine run over a batch: upsert each
record in order (the source loop awaits each upsert before the next). -/
def syncStore (ukProp : String) (mrs : List MergeRequest) (s : Store) : Store :=
  mrs.foldl (upsertRecord ukProp) s

/-- The SyncResult record from jobs/syncMrNotion.ts. -/
structure SyncResult where
  total : Nat
  created : Nat
  updated : Nat
  failed : Nat
  errors : List (Nat × String)
deriving Repr, DecidableEq

/-- The date string classified by the loop: mr.merged_at with
JavaScript-falsy fallback (null or empty string) to mr.updated_at. -/
def relevantDate (mr : MergeRequest) : String :=
  match mr.merged_at with
  | some s => if s = "" then mr.updated_at else s
  | none => mr.updated_at

/-- One iteration of the per-record loop in syncMrToNotion.  The
outcome argument is the behavior of the awaited createOrUpdatePage call
for this record: ok, or the thrown error message.  On success the
record is classified created when its relevant date parses after since,
else updated; on failure the loop increments failed, appends the iid
and message to the error list, and continues. -/
def processMr (parseDate : String → Int) (since : Int) (acc : SyncResult)
    (mr : MergeRequest) (outcome : Except String Unit) : SyncResult :=
  match outcome with
  | Except.ok _ =>
    if parseDate (relevantDate mr) > since then
      { acc with created := acc.created + 1 }
    else
      { acc with updated := acc.updated + 1 }
  | Except.error msg =>
    { acc with failed := acc.failed + 1, errors := acc.errors ++ [(mr.iid, msg)] }

/-- The per-record phase of syncMrToNotion over a fetched batch: total
is set to the batch length before the loop, then every record is
processed in order.  Each record is paired with the outcome of its
store call. -/
def runSyncLoop (parseDate : String → Int) (since : Int)
    (batch : List (MergeRequest × Except String Unit)) : SyncResult :=
  batch.foldl (fun acc p => processMr parseDate since acc p.1 p.2)
    { total := batch.length, created := 0, updated := 0, failed := 0, errors := [] }

/-- Whether a record's store call succeeded. -/
def outcomeOk (p : MergeRequest × Except String Unit) : Bool :=
  match p.2 with
  | Except.ok _ => true
  | Except.error _ => false

/-- The error-list entry a failing record contributes: its iid and the
error message; none for a succeeding record. -/
def outcomeErrEntry (p : MergeRequest × Except String Unit) : Option (Nat × String) :=
  match p.2 with
  | Except.error m => some (p.1.iid, m)
  | Except.ok _ => none

/-- The error entries of the failing records of a batch, in batch
order. -/
def failList (batch : List (MergeRequest × Except String Unit)) : List (Nat × String) :=
  batch.filterMap outcomeErrEntry

/-- JavaScript a or-else d for an optional numeric setting: undefined
and 0 are falsy and fall through to the default. -/
def jsNumOr (override : Option Nat) (d : Nat) : Nat :=
  match override with
  | some n => if n = 0 then d else n
  | none => d

/-- maxRetries resolution in syncMrToNotion finalConfig: the override or
3. -/
def syncConfigMaxRetries (override : Option Nat) : Nat := jsNumOr override 3

/-- maxRetries resolution in NotionApiWrapper.parseEnvConfig: the
override or DEFAULT_MAX_RETRIES (no environment variable feeds it). -/
def notionConfigMaxRetries (override : Option Nat) : Nat :=
  jsNumOr override DEFAULT_MAX_RETRIES

/-- The maxRetries value a withRetry call runs with: the explicit call
argument when one is passed, else the wrapper-config value with
JavaScript or-else fallback to DEFAULT_MAX_RETRIES. -/
def withRetryMaxRetriesArg (cfgMaxRetries : Option Nat) (callArg : Option Nat) : Nat :=
  match callArg with
  | some n => n
  | none => jsNumOr cfgMaxRetries DEFAULT_MAX_RETRIES

/-- The retry bound governing the store calls issued by syncMrToNotion
in a default-configuration run: the sync job calls the module-level
convenience wrappers, which use NotionApiWrapper.getInstance with no
config override, and no store call passes an explicit maxRetries; the
SyncConfig maxRetries value is never forwarded to the wrapper. -/
def storeCallMaxRetriesDefaultRun : Nat :=
  withRetryMaxRetriesArg (some (notionConfigMaxRetries none)) none

/-- The range-validation error message thrown by validateDateRange in
lib/gitlab.ts. -/
def rangeErrorMsg : String := "\"since\" must be earlier than \"until\""

/-- validateDateRange from lib/gitlab.ts: when both bounds are present
and since parses to a strictly later instant than until, throw; in
every other case (including equal instants) pass.  Timestamps are
modelled by their epoch-millisecond time values. -/
def validateDateRange (since until_ : Option Int) : Except String Unit :=
  match since, until_ with
  | some s, some u => if s > u then Except.error rangeErrorMsg else Except.ok ()
  | _, _ => Except.ok ()

/-- Observable outcome of a listMergedMrs call: the returned list or
thrown error, and whether the network (the MergeRequests.all call) was
reached. -/
structure ListCallResult where
  outcome : Except String (List MergeRequest)
  networkCalled : Bool
deriving Repr, DecidableEq

/-- listMergedMrs from lib/gitlab.ts, restricted to Date-typed window
bounds (for which the ISO-format validation always passes): validate
the date range first; on failure the error propagates before any
network call, otherwise the network fetch runs and its outcome is
returned.  The fetch argument is the behavior of the remote call. -/
def listMergedMrs (fetch : Except String (List MergeRequest))
    (since until_ : Option Int) : ListCallResult :=
  match validateDateRange since until_ with
  | Except.error msg => ⟨Except.error msg, false⟩
  | Except.ok _ => ⟨fetch, true⟩

/-- Exit code of the JOB-dispatch CLI path (runJob in jobs/index.ts):
an unregistered job name exits 1; a registered job that throws exits 1;
a registered job that returns normally lets the process exit 0, with no
inspection of the returned SyncResult. -/
def runJobExitCode (registered : Bool) (jobOutcome : Except String SyncResult) : Nat :=
  if registered then
    match jobOutcome with
    | Except.ok _ => 0
    | Except.error _ => 1
  else 1

/-- Exit code of the direct-script entry point (main in
jobs/syncMrNotion.ts): 1 when the sync throws, else 1 exactly when the
run had at least one per-record failure, 0 otherwise. -/
def syncMrNotionMainExitCode (outcome : Except String SyncResult) : Nat :=
  match outcome with
  | Except.ok r => if r.failed > 0 then 1 else 0
  | Except.error _ => 1

/-- A concrete rate-limited error (status 429), as the Notion SDK
raises it. -/
def rateLimitedErr : JsError := ⟨some 429, none, "Rate limited"⟩

/-- A concrete non-rate-limit error (status 500). -/
def serverErr : JsError := ⟨some 500, none, "Other error"⟩

/-- An operation that fails rate-limited on its first two attempts and
then succeeds with the value 7. -/
def opTwoRateLimitsThenOk : Nat → Except JsError Nat :=
  fun i => if i < 2 then Except.error rateLimitedErr else Except.ok 7

/-- An operation that always fails rate-limited. -/
def alwaysRateLimitedOp : Nat → Except JsError Nat :=
  fun _ => Except.error rateLimitedErr

/-- An operation that always fails with a non-rate-limit error. -/
def failFirstOp : Nat → Except JsError Nat :=
  fun _ => Except.error serverErr

/-- The empty target database. -/
def emptyStore : Store := ⟨[], 0⟩

/-- A concrete merged merge request used to instantiate the upsert and
mapper theorems. -/
def sampleMr : MergeRequest :=
  { id := 1, iid := 42, title := "Sample MR", description := "", state := "merged",
    merged_at := some "2024-01-05T10:00:00Z", closed_at := none,
    created_at := "2024-01-01T09:00:00Z", updated_at := "2024-01-05T10:00:00Z",
    target_branch := "main", source_branch := "feature", author := ⟨7, "Jane", "jane"⟩,
    web_url := "https://gitlab.example.com/mr/42", labels := none }

/-- A second concrete merge request, distinct iid. -/
def mrTwo : MergeRequest :=
  { sampleMr with id := 2, iid := 2, title := "Second MR" }

/-- The error message of a concrete non-rate-limit store failure. -/
def apiErrorMsg : String := "API Error"

/-- A concrete two-record batch whose second record's store call fails
with a non-rate-limit error while the first succeeds. -/
def cexBatch : List (MergeRequest × Except String Unit) :=
  [(sampleMr, Except.ok ()), (mrTwo, Except.error apiErrorMsg)]

/-- A concrete date parser assigning every string the instant 0. -/
def parseDateStub : String → Int := fun _ => 0

/-- A merge request carrying an empty labels array and an empty (hence
JavaScript-falsy) merged_at string. -/
def mrEmptyLabels : MergeRequest :=
  { sampleMr with labels := some [], merged_at := some "" }

/-- A sync result of a completed run with one per-record failure. -/
def failedRunResult : SyncResult :=
  { total := 2, created := 1, updated := 0, failed := 1, errors := [(2, apiErrorMsg)] }

/-! ### Helper lemmas -/

/-- Splitting a range-indexed delay list at its head. -/
theorem rangeMapPowSucc (base a r : Nat) :
    (List.range (r + 1)).map (fun i => base * 2 ^ (a + i)) =
      base * 2 ^ a :: (List.range r).map (fun i => base * 2 ^ (a + 1 + i)) := by
  rw [List.range_succ_eq_map, List.map_cons, List.map_map]
  have h : ((fun i => base * 2 ^ (a + i)) ∘ Nat.succ) =
      fun i => base * 2 ^ (a + 1 + i) := by
    funext i
    simp only [Function.comp_apply]
    have hx : a + Nat.succ i = a + 1 + i := by omega
    rw [hx]
  rw [h]
  simp

/-- Behavior of the retry loop when the operation fails rate-limited on
its first k attempts from position a and then succeeds, with at least k
retries remaining: the success value is returned after exactly k
retries, with exponentially growing delays and one warning each. -/
theorem withRetryFrom_eventually_ok {α : Type} (op : Nat → Except JsError α)
    (base : Nat) (k : Nat) (errAt : Nat → JsError) (v : α) :
    ∀ a r, (∀ i, i < k → op (a + i) = Except.error (errAt (a + i))) →
      (∀ i, i < k → isRateLimited (errAt (a + i)) = true) →
      op (a + k) = Except.ok v → k ≤ r →
      withRetryFrom op base a r =
        ⟨Except.ok v, k + 1, (List.range k).map (fun i => base * 2 ^ (a + i)), k⟩ := by
  induction k with
  | zero =>
    intro a r _ _ hs _
    simp only [Nat.add_zero] at hs
    rw [withRetryFrom, hs]
    simp
  | succ k ih =>
    intro a r hf hrl hs hk
    have h0 : op a = Except.error (errAt a) := by
      have h := hf 0 (by omega)
      simpa using h
    have h0rl : isRateLimited (errAt a) = true := by
      have h := hrl 0 (by omega)
      simpa using h
    obtain ⟨r', rfl⟩ : ∃ r', r = r' + 1 := ⟨r - 1, by omega⟩
    rw [withRetryFrom, h0]
    simp only [h0rl, if_true]
    have hrec := ih (a + 1) r'
      (by
        intro i hi
        have h := hf (i + 1) (by omega)
        have hx : a + (i + 1) = a + 1 + i := by omega
        rwa [hx] at h)
      (by
        intro i hi
        have h := hrl (i + 1) (by omega)
        have hx : a + (i + 1) = a + 1 + i := by omega
        rwa [hx] at h)
      (by
        have hx : a + (k + 1) = a + 1 + k := by omega
        rwa [hx] at hs)
      (by omega)
    rw [hrec, rangeMapPowSucc]

/-- Behavior of the retry loop when the operation always fails
rate-limited: it exhausts the remaining retries and rethrows the error
of the last attempt. -/
theorem withRetryFrom_allFail {α : Type} (op : Nat → Except JsError α)
    (base : Nat) (errAt : Nat → JsError)
    (hop : ∀ i, op i = Except.error (errAt i))
    (hrl : ∀ i, isRateLimited (errAt i) = true) :
    ∀ r a, withRetryFrom op base a r =
      ⟨Except.error (errAt (a + r)), r + 1,
        (List.range r).map (fun i => base * 2 ^ (a + i)), r⟩ := by
  intro r
  induction r with
  | zero =>
    intro a
    rw [withRetryFrom, hop a]
    simp
  | succ r ih =>
    intro a
    rw [withRetryFrom, hop a]
    simp only [hrl a, if_true]
    rw [ih (a + 1), rangeMapPowSucc]
    have hx : a + 1 + r = a + (r + 1) := by omega
    rw [hx]

/-- Unfolding equation for getProp on a cons cell. -/
theorem getProp_cons (n : String) (w : PropValue) (rest : PropertiesMap) (name : String) :
    getProp ((n, w) :: rest) name = if n = name then some w else getProp rest name := rfl

/-- Reading past a prefix that binds the name. -/
theorem getProp_append_some (l₁ l₂ : PropertiesMap) (name : String) (v : PropValue)
    (h : getProp l₁ name = some v) : getProp (l₁ ++ l₂) name = some v := by
  induction l₁ with
  | nil => simp [getProp] at h
  | cons kv rest ih =>
    obtain ⟨n, w⟩ := kv
    by_cases hn : n = name
    · simp [getProp, hn] at h ⊢
      exact h
    · simp [getProp, hn] at h ⊢
      exact ih h

/-- Reading past a prefix that does not bind the name. -/
theorem getProp_append_none (l₁ l₂ : PropertiesMap) (name : String)
    (h : getProp l₁ name = none) : getProp (l₁ ++ l₂) name = getProp l₂ name := by
  induction l₁ with
  | nil => simp [getProp]
  | cons kv rest ih =>
    obtain ⟨n, w⟩ := kv
    by_cases hn : n = name
    · simp [getProp, hn] at h
    · simp [getProp, hn] at h ⊢
      exact ih h

/-- A name that reads as absent has no binding in the list. -/
theorem not_mem_of_getProp_none (l : PropertiesMap) (name : String)
    (h : getProp l name = none) : ∀ v, (name, v) ∉ l := by
  induction l with
  | nil => intro v hv; simp at hv
  | cons kv rest ih =>
    obtain ⟨n, w⟩ := kv
    by_cases hn : n = name
    · simp [getProp, hn] at h
    · simp [getProp, hn] at h
      intro v hv
      rcases List.mem_cons.mp hv with heq | hmem
      · exact hn (congrArg Prod.fst heq).symm
      · exact ih h v hmem

/-- A name outside the key list reads as absent. -/
theorem getProp_none_of_not_mem_keys (l : PropertiesMap) (name : String)
    (h : name ∉ l.map Prod.fst) : getProp l name = none := by
  induction l with
  | nil => rfl
  | cons kv rest ih =>
    obtain ⟨n, w⟩ := kv
    simp only [List.map_cons, List.mem_cons] at h
    push_neg at h
    rw [getProp_cons, if_neg (fun he : n = name => h.1 he.symm)]
    exact ih h.2

/-- Reading the overwritten name after an in-place replacement. -/
theorem getProp_map_replace_self (l : PropertiesMap) (name : String) (v : PropValue) :
    getProp (l.map fun kv => if kv.1 = name then (name, v) else kv) name =
      (getProp l name).map (fun _ => v) := by
  induction l with
  | nil => rfl
  | cons kv rest ih =>
    obtain ⟨n, w⟩ := kv
    simp only [List.map_cons]
    by_cases hn : n = name
    · rw [if_pos hn, getProp_cons, if_pos rfl, getProp_cons, if_pos hn]
      rfl
    · rw [if_neg hn, getProp_cons, if_neg hn, getProp_cons, if_neg hn]
      exact ih

/-- Reading another name after an in-place replacement. -/
theorem getProp_map_replace_other (l : PropertiesMap) (name m : String) (v : PropValue)
    (hm : m ≠ name) :
    getProp (l.map fun kv => if kv.1 = name then (name, v) else kv) m =
      getProp l m := by
  induction l with
  | nil => rfl
  | cons kv rest ih =>
    obtain ⟨n, w⟩ := kv
    simp only [List.map_cons]
    by_cases hn : n = name
    · rw [if_pos hn, getProp_cons, if_neg (fun he : name = m => hm he.symm),
        getProp_cons, if_neg (fun he : n = m => hm (hn ▸ he).symm)]
      exact ih
    · rw [if_neg hn, getProp_cons, getProp_cons]
      by_cases hnm : n = m
      · rw [if_pos hnm, if_pos hnm]
      · rw [if_neg hnm, if_neg hnm]
        exact ih

/-- When no entry carries the name, the read is none. -/
theorem getProp_none_of_any_false (l : PropertiesMap) (name : String)
    (h : l.any (fun kv => kv.1 == name) = false) : getProp l name = none := by
  induction l with
  | nil => rfl
  | cons kv rest ih =>
    obtain ⟨n, w⟩ := kv
    simp only [List.any_cons, Bool.or_eq_false_iff] at h
    have hn : n ≠ name := by
      intro he
      rw [he] at h
      simp at h
    simp [getProp, hn]
    exact ih h.2

/-- When some entry carries the name, the read succeeds. -/
theorem getProp_isSome_of_any_true (l : PropertiesMap) (name : String)
    (h : l.any (fun kv => kv.1 == name) = true) : ∃ w, getProp l name = some w := by
  induction l with
  | nil => simp at h
  | cons kv rest ih =>
    obtain ⟨n, w⟩ := kv
    by_cases hn : n = name
    · exact ⟨w, by simp [getProp, hn]⟩
    · simp only [List.any_cons, Bool.or_eq_true] at h
      rcases h with h | h
      · simp [hn] at h
      · obtain ⟨w', hw'⟩ := ih h
        exact ⟨w', by simp [getProp, hn, hw']⟩

/-- Reading the written name after a JavaScript-style property set. -/
theorem getProp_setProp_self (l : PropertiesMap) (name : String) (v : PropValue) :
    getProp (setProp l name v) name = some v := by
  unfold setProp
  by_cases h : l.any (fun kv => kv.1 == name) = true
  · rw [if_pos h, getProp_map_replace_self]
    obtain ⟨w, hw⟩ := getProp_isSome_of_any_true l name h
    rw [hw]
    rfl
  · rw [if_neg h]
    rw [getProp_append_none _ _ _ (getProp_none_of_any_false l name
      (by revert h; cases l.any (fun kv => kv.1 == name) <;> simp))]
    simp [getProp]

/-- Reading another name after a JavaScript-style property set. -/
theorem getProp_setProp_other (l : PropertiesMap) (name m : String) (v : PropValue)
    (hm : m ≠ name) : getProp (setProp l name v) m = getProp l m := by
  unfold setProp
  by_cases h : l.any (fun kv => kv.1 == name) = true
  · rw [if_pos h]
    exact getProp_map_replace_other l name m v hm
  · rw [if_neg h]
    cases hl : getProp l m with
    | some w => exact getProp_append_some _ _ _ _ hl
    | none =>
      rw [getProp_append_none _ _ _ hl, getProp_cons,
        if_neg (fun he : name = m => hm he.symm)]
      rfl

/-- A merge whose payload does not bind a name leaves that name's
binding unchanged. -/
theorem mergeProps_getProp_absent (payload : PropertiesMap) (name : String) :
    ∀ base, getProp payload name = none →
      getProp (mergeProps base payload) name = getProp base name := by
  induction payload with
  | nil => intro base _; rfl
  | cons kv rest ih =>
    intro base h
    obtain ⟨n, w⟩ := kv
    by_cases hn : n = name
    · simp [getProp, hn] at h
    · simp only [getProp, if_neg hn] at h
      show getProp (mergeProps (setProp base n w) rest) name = getProp base name
      rw [ih (setProp base n w) h]
      exact getProp_setProp_other base n name w (fun he => hn he.symm)

/-- A merge writes every name the payload binds, provided the payload
binds each name once (as a JavaScript object does). -/
theorem mergeProps_getProp_mem (payload : PropertiesMap) (name : String) (v : PropValue) :
    ∀ base, (payload.map Prod.fst).Nodup → getProp payload name = some v →
      getProp (mergeProps base payload) name = some v := by
  induction payload with
  | nil => intro base _ h; simp [getProp] at h
  | cons kv rest ih =>
    intro base hnd h
    obtain ⟨n, w⟩ := kv
    simp only [List.map_cons, List.nodup_cons] at hnd
    by_cases hn : n = name
    · simp only [getProp, if_pos hn] at h
      injection h with hv
      subst hv
      subst hn
      have hrest : getProp rest n = none :=
        getProp_none_of_not_mem_keys rest n hnd.1
      show getProp (mergeProps (setProp base n w) rest) n = some w
      rw [mergeProps_getProp_absent rest n (setProp base n w) hrest]
      exact getProp_setProp_self base n w
    · simp only [getProp, if_neg hn] at h
      exact ih (setProp base n w) hnd.2 h

/-- Filtering a mapped list under a map that preserves the predicate. -/
theorem filter_map_of_pred_preserved (f : Page → Page) (q : Page → Bool)
    (h : ∀ x, q (f x) = q x) :
    ∀ l : List Page, (l.map f).filter q = (l.filter q).map f := by
  intro l
  induction l with
  | nil => rfl
  | cons a t ih =>
    cases hq : q a with
    | true => simp [List.filter_cons, h a, hq, ih]
    | false => simp [List.filter_cons, h a, hq, ih]

/-- A property merge whose payload does not bind the unique-key
property does not change whether a page matches any key. -/
theorem pageMatches_merge (ukProp key : String) (payload : PropertiesMap) (p : Page)
    (hpay : getProp payload ukProp = none) :
    pageMatches ukProp key { p with props := mergeProps p.props payload } =
      pageMatches ukProp key p := by
  unfold pageMatches
  rw [mergeProps_getProp_absent payload ukProp p.props hpay]

/-- The page transformation applied by updatePageProps preserves
key-matching when the payload does not bind the unique-key property. -/
theorem pageMatches_update_fun (ukProp key : String) (pid : Nat)
    (payload : PropertiesMap) (hpay : getProp payload ukProp = none) (x : Page) :
    pageMatches ukProp key
        (if x.id = pid then { x with props := mergeProps x.props payload } else x) =
      pageMatches ukProp key x := by
  by_cases h : x.id = pid
  · rw [if_pos h, pageMatches_merge ukProp key payload x hpay]
  · rw [if_neg h]

/-- findPageByUniqueKey is the head of the filtered page list. -/
theorem findPage_eq_head (ukProp key : String) (s : Store) :
    findPageByUniqueKey ukProp key s =
      (s.pages.filter (pageMatches ukProp key)).head? := by
  unfold findPageByUniqueKey queryByUniqueKey
  cases s.pages.filter (pageMatches ukProp key) with
  | nil => rfl
  | cons a t => rfl

/-- An update whose payload does not bind the unique-key property does
not change any key count. -/
theorem countKey_updatePageProps (ukProp k : String) (s : Store) (pid : Nat)
    (payload : PropertiesMap) (hpay : getProp payload ukProp = none) :
    countKey ukProp k (updatePageProps s pid payload) = countKey ukProp k s := by
  unfold countKey updatePageProps
  simp only
  rw [filter_map_of_pred_preserved _ _
    (pageMatches_update_fun ukProp k pid payload hpay) s.pages]
  exact List.length_map _ _

/-- After such an update, the page found for a key is the updated image
of the page found before. -/
theorem findPage_updatePageProps (ukProp key : String) (s : Store) (pid : Nat)
    (payload : PropertiesMap) (hpay : getProp payload ukProp = none) :
    findPageByUniqueKey ukProp key (updatePageProps s pid payload) =
      (findPageByUniqueKey ukProp key s).map
        (fun p => if p.id = pid then { p with props := mergeProps p.props payload } else p) := by
  rw [findPage_eq_head, findPage_eq_head]
  unfold updatePageProps
  simp only
  rw [filter_map_of_pred_preserved _ _
    (pageMatches_update_fun ukProp key pid payload hpay) s.pages]
  cases s.pages.filter (pageMatches ukProp key) with
  | nil => rfl
  | cons a t => rfl

/-- The page built by the create branch matches its own key. -/
theorem pageMatches_setProp_self (ukProp key : String) (payload : PropertiesMap)
    (i : Nat) :
    pageMatches ukProp key ⟨i, setProp payload ukProp (PropValue.title key)⟩ = true := by
  unfold pageMatches
  rw [getProp_setProp_self]
  simp

/-- The page built by the create branch matches no other key. -/
theorem pageMatches_setProp_other (ukProp key k : String) (payload : PropertiesMap)
    (i : Nat) (hk : k ≠ key) :
    pageMatches ukProp k ⟨i, setProp payload ukProp (PropValue.title key)⟩ = false := by
  unfold pageMatches
  rw [getProp_setProp_self]
  show (key == k) = false
  simp only [beq_eq_false_iff_ne]
  exact fun he => hk he.symm

/-- A missed lookup means a zero key count. -/
theorem countKey_zero_of_findPage_none (ukProp key : String) (s : Store)
    (h : findPageByUniqueKey ukProp key s = none) : countKey ukProp key s = 0 := by
  rw [findPage_eq_head] at h
  unfold countKey
  cases hl : s.pages.filter (pageMatches ukProp key) with
  | nil => rfl
  | cons a t => rw [hl] at h; simp at h

/-- A successful lookup means a positive key count. -/
theorem countKey_pos_of_findPage_some (ukProp key : String) (s : Store) (p : Page)
    (h : findPageByUniqueKey ukProp key s = some p) : 1 ≤ countKey ukProp key s := by
  rw [findPage_eq_head] at h
  unfold countKey
  cases hl : s.pages.filter (pageMatches ukProp key) with
  | nil => rw [hl] at h; simp at h
  | cons a t => simp

/-- One upsert sets the count of its own key to exactly one and leaves
every other key count unchanged, provided the store held at most one
page under the key and the payload does not bind the unique-key
property. -/
theorem countKey_createOrUpdatePage (ukProp key : String) (payload : PropertiesMap)
    (s : Store) (hpay : getProp payload ukProp = none)
    (hk1 : countKey ukProp key s ≤ 1) :
    countKey ukProp key (createOrUpdatePage ukProp key payload s) = 1 ∧
    ∀ k, k ≠ key → countKey ukProp k (createOrUpdatePage ukProp key payload s) =
      countKey ukProp k s := by
  unfold createOrUpdatePage
  cases hfind : findPageByUniqueKey ukProp key s with
  | some p =>
    constructor
    · rw [countKey_updatePageProps ukProp key s p.id payload hpay]
      have h1 := countKey_pos_of_findPage_some ukProp key s p hfind
      omega
    · intro k _
      exact countKey_updatePageProps ukProp k s p.id payload hpay
  | none =>
    have h0 := countKey_zero_of_findPage_none ukProp key s hfind
    constructor
    · unfold createPage countKey
      simp only [List.filter_append]
      rw [List.length_append]
      unfold countKey at h0
      rw [h0]
      simp [List.filter_cons, pageMatches_setProp_self ukProp key payload s.nextId]
    · intro k hk
      unfold createPage countKey
      simp only [List.filter_append]
      rw [List.length_append]
      simp [List.filter_cons, pageMatches_setProp_other ukProp key k payload s.nextId hk]

/-- Running the engine over a batch makes the count of every batch key
exactly one and leaves other key counts unchanged, given the at-most-one
invariant and payloads that do not bind the unique-key property. -/
theorem countKey_syncStore (ukProp : String) (mrs : List MergeRequest) :
    ∀ s, (∀ k, countKey ukProp k s ≤ 1) →
      (∀ mr ∈ mrs, getProp (mapMrToNotionProperties mr) ukProp = none) →
      ∀ k, countKey ukProp k (syncStore ukProp mrs s) =
        if k ∈ mrs.map mrKey then 1 else countKey ukProp k s := by
  induction mrs with
  | nil =>
    intro s _ _ k
    simp [syncStore]
  | cons mr rest ih =>
    intro s hinv hmrs k
    have hpay : getProp (mapMrToNotionProperties mr) ukProp = none :=
      hmrs mr (List.mem_cons_self mr rest)
    have hstep := countKey_createOrUpdatePage ukProp (mrKey mr)
      (mapMrToNotionProperties mr) s hpay (hinv (mrKey mr))
    have hsync : syncStore ukProp (mr :: rest) s =
        syncStore ukProp rest (upsertRecord ukProp s mr) := rfl
    have hinvNext : ∀ k, countKey ukProp k (upsertRecord ukProp s mr) ≤ 1 := by
      intro k'
      show countKey ukProp k'
        (createOrUpdatePage ukProp (mrKey mr) (mapMrToNotionProperties mr) s) ≤ 1
      by_cases hk' : k' = mrKey mr
      · rw [hk']
        exact le_of_eq hstep.1
      · rw [hstep.2 k' hk']
        exact hinv k'
    have hrest := ih (upsertRecord ukProp s mr) hinvNext
      (fun m hm => hmrs m (List.mem_cons_of_mem mr hm)) k
    rw [hsync, hrest]
    by_cases hmem : k ∈ rest.map mrKey
    · have hmem2 : k ∈ List.map mrKey (mr :: rest) := by
        rw [List.map_cons]
        exact List.mem_cons_of_mem _ hmem
      rw [if_pos hmem, if_pos hmem2]
    · by_cases hk : k = mrKey mr
      · have hmem2 : k ∈ List.map mrKey (mr :: rest) := by
          rw [List.map_cons, hk]
          exact List.mem_cons_self _ _
        rw [if_neg hmem, if_pos hmem2]
        show countKey ukProp k
          (createOrUpdatePage ukProp (mrKey mr) (mapMrToNotionProperties mr) s) = 1
        rw [hk]
        exact hstep.1
      · have hmem2 : k ∉ List.map mrKey (mr :: rest) := by
          rw [List.map_cons]
          simp [List.mem_cons, hk, hmem]
        rw [if_neg hmem, if_neg hmem2]
        show countKey ukProp k
          (createOrUpdatePage ukProp (mrKey mr) (mapMrToNotionProperties mr) s) =
            countKey ukProp k s
        exact hstep.2 k hk

/-- Unfolding equation for processMr on a successful outcome. -/
theorem processMr_ok (pd : String → Int) (since : Int) (acc : SyncResult)
    (mr : MergeRequest) (u : Unit) :
    processMr pd since acc mr (Except.ok u) =
      if pd (relevantDate mr) > since then { acc with created := acc.created + 1 }
      else { acc with updated := acc.updated + 1 } := rfl

/-- Unfolding equation for processMr on a failing outcome. -/
theorem processMr_error (pd : String → Int) (since : Int) (acc : SyncResult)
    (mr : MergeRequest) (msg : String) :
    processMr pd since acc mr (Except.error msg) =
      { acc with failed := acc.failed + 1, errors := acc.errors ++ [(mr.iid, msg)] } := rfl

/-- Every batch record either succeeds or contributes an error entry. -/
theorem ok_fail_length (batch : List (MergeRequest × Except String Unit)) :
    (batch.filter outcomeOk).length + (failList batch).length = batch.length := by
  induction batch with
  | nil => rfl
  | cons p rest ih =>
    obtain ⟨mr, oc⟩ := p
    cases oc with
    | ok u =>
      simp only [failList, List.filter_cons, List.filterMap_cons] at *
      simp [outcomeOk, outcomeErrEntry] at *
      omega
    | error m =>
      simp only [failList, List.filter_cons, List.filterMap_cons] at *
      simp [outcomeOk, outcomeErrEntry] at *
      omega

/-- Accounting invariant of the per-record fold: starting from any
accumulator, total is untouched, created plus updated grows by the
number of successes, failed grows by the number of failures, and the
failing records' entries are appended to the error list in order. -/
theorem runSyncLoop_fold_spec (pd : String → Int) (since : Int) :
    ∀ (batch : List (MergeRequest × Except String Unit)) (acc : SyncResult),
      (batch.foldl (fun acc p => processMr pd since acc p.1 p.2) acc).total = acc.total ∧
      (batch.foldl (fun acc p => processMr pd since acc p.1 p.2) acc).created +
        (batch.foldl (fun acc p => processMr pd since acc p.1 p.2) acc).updated =
          acc.created + acc.updated + (batch.filter outcomeOk).length ∧
      (batch.foldl (fun acc p => processMr pd since acc p.1 p.2) acc).failed =
        acc.failed + (failList batch).length ∧
      (batch.foldl (fun acc p => processMr pd since acc p.1 p.2) acc).errors =
        acc.errors ++ failList batch := by
  intro batch
  induction batch with
  | nil =>
    intro acc
    simp [failList]
  | cons p rest ih =>
    intro acc
    obtain ⟨mr, oc⟩ := p
    cases oc with
    | ok u =>
      have hfl : failList ((mr, Except.ok u) :: rest) = failList rest := by
        simp [failList, List.filterMap_cons, outcomeErrEntry]
      have hfo : (((mr, Except.ok u) :: rest).filter outcomeOk).length =
          (rest.filter outcomeOk).length + 1 := by
        rw [List.filter_cons]
        simp [outcomeOk]
      simp only [List.foldl_cons]
      rw [processMr_ok]
      by_cases hrec : pd (relevantDate mr) > since
      · rw [if_pos hrec]
        have h := ih { acc with created := acc.created + 1 }
        refine ⟨h.1, ?_, ?_, ?_⟩
        · rw [h.2.1, hfo]
          show acc.created + 1 + acc.updated + (rest.filter outcomeOk).length =
            acc.created + acc.updated + ((rest.filter outcomeOk).length + 1)
          omega
        · rw [h.2.2.1, hfl]
        · rw [h.2.2.2, hfl]
      · rw [if_neg hrec]
        have h := ih { acc with updated := acc.updated + 1 }
        refine ⟨h.1, ?_, ?_, ?_⟩
        · rw [h.2.1, hfo]
          show acc.created + (acc.updated + 1) + (rest.filter outcomeOk).length =
            acc.created + acc.updated + ((rest.filter outcomeOk).length + 1)
          omega
        · rw [h.2.2.1, hfl]
        · rw [h.2.2.2, hfl]
    | error m =>
      have hfl : failList ((mr, Except.error m) :: rest) =
          (mr.iid, m) :: failList rest := by
        simp [failList, List.filterMap_cons, outcomeErrEntry]
      have hfo : (((mr, Except.error m) :: rest).filter outcomeOk).length =
          (rest.filter outcomeOk).length := by
        rw [List.filter_cons]
        simp [outcomeOk]
      simp only [List.foldl_cons]
      rw [processMr_error]
      have h := ih { acc with failed := acc.failed + 1, errors := acc.errors ++ [(mr.iid, m)] }
      refine ⟨h.1, ?_, ?_, ?_⟩
      · rw [h.2.1, hfo]
      · rw [h.2.2.1, hfl]
        show acc.failed + 1 + (failList rest).length =
          acc.failed + ((mr.iid, m) :: failList rest).length
        simp [List.length_cons]
        omega
      · rw [h.2.2.2, hfl]
        show (acc.errors ++ [(mr.iid, m)]) ++ failList rest =
          acc.errors ++ ((mr.iid, m) :: failList rest)
        simp [List.append_assoc]

/-! ### Claim theorems -/

/-- C2: if an operation fails with the rate-limit signal exactly k
times with k strictly below maxRetries and then succeeds, withRetry
returns the success value, performs exactly k delayed retries whose
i-th delay is baseDelay times 2 to the i, and emits one warning log per
retry. -/
theorem withRetry_rate_limited_then_success {α : Type}
    (op : Nat → Except JsError α) (errAt : Nat → JsError)
    (k maxRetries baseDelay : Nat) (v : α)
    (hk : k < maxRetries)
    (hop : ∀ i, i < k → op i = Except.error (errAt i))
    (hrl : ∀ i, i < k → isRateLimited (errAt i) = true)
    (hsucc : op k = Except.ok v) :
    withRetry op maxRetries baseDelay =
      ⟨Except.ok v, k + 1, (List.range k).map (fun i => baseDelay * 2 ^ i), k⟩ := by
  unfold withRetry
  have h := withRetryFrom_eventually_ok op baseDelay k errAt v 0 maxRetries
    (by intro i hi; simpa using hop i hi)
    (by intro i hi; simpa using hrl i hi)
    (by simpa using hsucc)
    (Nat.le_of_lt hk)
  rw [h]
  simp

/-- Witness for C2: concrete run with two rate-limited failures, then
success, under maxRetries 5 and baseDelay 1000. -/
theorem withRetry_rate_limited_then_success_witness :
    withRetry opTwoRateLimitsThenOk 5 1000 = ⟨Except.ok 7, 3, [1000, 2000], 2⟩ := by
  have h := withRetry_rate_limited_then_success opTwoRateLimitsThenOk
    (fun _ => rateLimitedErr) 2 5 1000 7
    (by decide)
    (by intro i hi; simp [opTwoRateLimitsThenOk, hi])
    (by intro i _; show isRateLimited rateLimitedErr = true; decide)
    (by simp [opTwoRateLimitsThenOk])
  rw [h]
  decide

/-- C3: if an operation always fails with the rate-limit signal,
withRetry performs exactly maxRetries retries, invoking the operation
maxRetries plus one times in total, and rethrows the error of the last
attempt unchanged. -/
theorem withRetry_exhaustion {α : Type} (op : Nat → Except JsError α)
    (errAt : Nat → JsError) (maxRetries baseDelay : Nat)
    (hop : ∀ i, op i = Except.error (errAt i))
    (hrl : ∀ i, isRateLimited (errAt i) = true) :
    withRetry op maxRetries baseDelay =
      ⟨Except.error (errAt maxRetries), maxRetries + 1,
        (List.range maxRetries).map (fun i => baseDelay * 2 ^ i), maxRetries⟩ := by
  unfold withRetry
  rw [withRetryFrom_allFail op baseDelay errAt hop hrl maxRetries 0]
  simp

/-- Witness for C3: a concrete always-rate-limited operation under
maxRetries 3 and baseDelay 100 raises after 4 attempts and 3 delays. -/
theorem withRetry_exhaustion_witness :
    withRetry alwaysRateLimitedOp 3 100 =
      ⟨Except.error rateLimitedErr, 4, [100, 200, 400], 3⟩ := by
  have h := withRetry_exhaustion alwaysRateLimitedOp (fun _ => rateLimitedErr) 3 100
    (fun _ => rfl) (fun _ => by show isRateLimited rateLimitedErr = true; decide)
  rw [h]
  decide

/-- C4: if the first failure is not a rate-limit signal, withRetry
invokes the operation exactly once, performs zero retries and zero
warning logs, and rethrows that error unchanged. -/
theorem withRetry_non_rate_limit_no_retry {α : Type}
    (op : Nat → Except JsError α) (e : JsError) (maxRetries baseDelay : Nat)
    (hfirst : op 0 = Except.error e)
    (hnr : isRateLimited e = false) :
    withRetry op maxRetries baseDelay = ⟨Except.error e, 1, [], 0⟩ := by
  unfold withRetry
  rw [withRetryFrom, hfirst]
  cases maxRetries with
  | zero => rfl
  | succ r => simp [hnr]

/-- Witness for C4: a concrete status-500 failure is rethrown
immediately with one attempt and no retry. -/
theorem withRetry_non_rate_limit_no_retry_witness :
    withRetry failFirstOp 5 1000 = ⟨Except.error serverErr, 1, [], 0⟩ :=
  withRetry_non_rate_limit_no_retry failFirstOp serverErr 5 1000 rfl (by decide)

/-- C1: when the store holds at most one page per unique-key value,
one upsert preserves that invariant; if a page with the key exists it
is updated in place (same id, the payload properties written, the
unique-key property untouched) and no page is created, otherwise
exactly one page is created with the unique-key property populated;
and running the engine twice over the same record set leaves exactly
one page per sync key.  The payload hypotheses state what holds of
every payload the engine sends: it does not bind the unique-key
property and, being a JavaScript object, binds each name once. -/
theorem upsert_unique_key_invariant
    (ukProp key : String) (payload : PropertiesMap) (s : Store) (mrs : List MergeRequest)
    (hinv : ∀ k, countKey ukProp k s ≤ 1)
    (hpay : getProp payload ukProp = none)
    (hnd : (payload.map Prod.fst).Nodup)
    (hmrs : ∀ mr ∈ mrs, getProp (mapMrToNotionProperties mr) ukProp = none) :
    (∀ k, countKey ukProp k (createOrUpdatePage ukProp key payload s) ≤ 1) ∧
    (∀ p, findPageByUniqueKey ukProp key s = some p →
      (createOrUpdatePage ukProp key payload s).pages.length = s.pages.length ∧
      ∃ q, findPageByUniqueKey ukProp key (createOrUpdatePage ukProp key payload s) = some q ∧
        q.id = p.id ∧
        getProp q.props ukProp = getProp p.props ukProp ∧
        (∀ name v, getProp payload name = some v → getProp q.props name = some v)) ∧
    (findPageByUniqueKey ukProp key s = none →
      (createOrUpdatePage ukProp key payload s).pages.length = s.pages.length + 1 ∧
      countKey ukProp key (createOrUpdatePage ukProp key payload s) = 1) ∧
    (∀ mr ∈ mrs, countKey ukProp (mrKey mr)
      (syncStore ukProp mrs (syncStore ukProp mrs s)) = 1) := by
  have hstep := countKey_createOrUpdatePage ukProp key payload s hpay (hinv key)
  refine ⟨?_, ?_, ?_, ?_⟩
  · intro k
    by_cases hk : k = key
    · rw [hk]
      exact le_of_eq hstep.1
    · rw [hstep.2 k hk]
      exact hinv k
  · intro p hfind
    have hcu : createOrUpdatePage ukProp key payload s = updatePageProps s p.id payload := by
      unfold createOrUpdatePage
      rw [hfind]
    constructor
    · rw [hcu]
      show (s.pages.map _).length = s.pages.length
      exact List.length_map _ _
    · rw [hcu, findPage_updatePageProps ukProp key s p.id payload hpay, hfind]
      refine ⟨{ p with props := mergeProps p.props payload }, ?_, rfl, ?_, ?_⟩
      · simp
      · exact mergeProps_getProp_absent payload ukProp p.props hpay
      · intro name v hv
        exact mergeProps_getProp_mem payload name v p.props hnd hv
  · intro hfind
    have hcu : createOrUpdatePage ukProp key payload s =
        createPage s (setProp payload ukProp (PropValue.title key)) := by
      unfold createOrUpdatePage
      rw [hfind]
    constructor
    · rw [hcu]
      show (s.pages ++ [_]).length = s.pages.length + 1
      simp
    · exact hstep.1
  · intro mr hm
    have h1 := countKey_syncStore ukProp mrs s hinv hmrs
    have hinv1 : ∀ k, countKey ukProp k (syncStore ukProp mrs s) ≤ 1 := by
      intro k
      rw [h1 k]
      by_cases hk : k ∈ mrs.map mrKey
      · rw [if_pos hk]
      · rw [if_neg hk]
        exact hinv k
    have h2 := countKey_syncStore ukProp mrs (syncStore ukProp mrs s) hinv1 hmrs
    rw [h2 (mrKey mr), if_pos (List.mem_map_of_mem mrKey hm)]

/-- Witness for C1: syncing a concrete one-record batch twice into the
empty store under the default unique-key property leaves exactly one
page under the record's sync key. -/
theorem upsert_unique_key_invariant_witness :
    countKey DEFAULT_UNIQUE_KEY_PROP (mrKey sampleMr)
      (syncStore DEFAULT_UNIQUE_KEY_PROP [sampleMr]
        (syncStore DEFAULT_UNIQUE_KEY_PROP [sampleMr] emptyStore)) = 1 := by
  have h := upsert_unique_key_invariant DEFAULT_UNIQUE_KEY_PROP (mrKey sampleMr)
    (mapMrToNotionProperties sampleMr) emptyStore [sampleMr]
    (by
      intro k
      show countKey DEFAULT_UNIQUE_KEY_PROP k emptyStore ≤ 1
      show ((emptyStore.pages.filter (pageMatches DEFAULT_UNIQUE_KEY_PROP k)).length) ≤ 1
      simp [emptyStore])
    (by decide)
    (by decide)
    (by
      intro mr hm
      have hm2 : mr = sampleMr := by simpa using hm
      rw [hm2]
      decide)
  exact h.2.2.2 sampleMr (by simp)

/-- C5: when some records of a fetched batch fail their upsert and
others succeed, the loop still processes every record and returns
normally; failed equals the number of failing records, the error list
holds exactly one iid-message entry per failing record in order, and
the succeeding records are counted in created or updated. -/
theorem partial_failure_isolation (pd : String → Int) (since : Int)
    (batch : List (MergeRequest × Except String Unit))
    (hfail : failList batch ≠ [])
    (hsucc : 0 < (batch.filter outcomeOk).length) :
    (runSyncLoop pd since batch).total = batch.length ∧
    (runSyncLoop pd since batch).failed = (failList batch).length ∧
    (runSyncLoop pd since batch).errors = failList batch ∧
    (runSyncLoop pd since batch).created + (runSyncLoop pd since batch).updated =
      (batch.filter outcomeOk).length := by
  have h := runSyncLoop_fold_spec pd since batch
    { total := batch.length, created := 0, updated := 0, failed := 0, errors := [] }
  refine ⟨h.1, ?_, ?_, ?_⟩
  · have h2 := h.2.2.1
    simpa using h2
  · have h2 := h.2.2.2
    simpa using h2
  · have h2 := h.2.1
    simpa using h2

/-- Witness for C5: the concrete two-record batch with one
non-rate-limit failure yields total 2, failed 1, one error entry for
the failing iid, and the other record counted as written. -/
theorem partial_failure_isolation_witness :
    (failList cexBatch ≠ [] ∧ 0 < (cexBatch.filter outcomeOk).length) ∧
    ((runSyncLoop parseDateStub (-1) cexBatch).total = cexBatch.length ∧
     (runSyncLoop parseDateStub (-1) cexBatch).failed = (failList cexBatch).length ∧
     (runSyncLoop parseDateStub (-1) cexBatch).errors = failList cexBatch ∧
     (runSyncLoop parseDateStub (-1) cexBatch).created +
       (runSyncLoop parseDateStub (-1) cexBatch).updated =
         (cexBatch.filter outcomeOk).length) ∧
    cexBatch.length = 2 ∧ (failList cexBatch).length = 1 ∧
    failList cexBatch = [(2, apiErrorMsg)] :=
  ⟨⟨by decide, by decide⟩,
   partial_failure_isolation parseDateStub (-1) cexBatch (by decide) (by decide),
   by decide, by decide, by decide⟩

/-- C10: for every completed run of the per-record loop, created plus
updated plus failed equals total, the error list is as long as the
failure count, and its entries are the failing records' entries in
batch order. -/
theorem sync_result_accounting (pd : String → Int) (since : Int)
    (batch : List (MergeRequest × Except String Unit)) :
    (runSyncLoop pd since batch).total = batch.length ∧
    (runSyncLoop pd since batch).created + (runSyncLoop pd since batch).updated +
      (runSyncLoop pd since batch).failed = (runSyncLoop pd since batch).total ∧
    (runSyncLoop pd since batch).errors.length = (runSyncLoop pd since batch).failed ∧
    (runSyncLoop pd since batch).errors = failList batch := by
  have h := runSyncLoop_fold_spec pd since batch
    { total := batch.length, created := 0, updated := 0, failed := 0, errors := [] }
  have htot : (runSyncLoop pd since batch).total = batch.length := h.1
  have hcu : (runSyncLoop pd since batch).created +
      (runSyncLoop pd since batch).updated = (batch.filter outcomeOk).length := by
    have h2 := h.2.1
    simpa using h2
  have hfail : (runSyncLoop pd since batch).failed = (failList batch).length := by
    have h2 := h.2.2.1
    simpa using h2
  have herr : (runSyncLoop pd since batch).errors = failList batch := by
    have h2 := h.2.2.2
    simpa using h2
  refine ⟨htot, ?_, ?_, herr⟩
  · rw [hcu, hfail, htot]
    exact ok_fail_length batch
  · rw [herr, hfail]

/-- Counterexample for C6: a record whose labels field is an empty
array still gets a Labels property (the source only checks presence,
not non-emptiness), and a record whose merged_at is the non-null but
JavaScript-falsy empty string gets no Merged Date property. -/
theorem mapper_conditional_properties_cex :
    mrEmptyLabels.labels = some [] ∧
    getProp (mapMrToNotionProperties mrEmptyLabels) labelsKey =
      some (PropValue.multiSelect []) ∧
    mrEmptyLabels.merged_at ≠ none ∧
    getProp (mapMrToNotionProperties mrEmptyLabels) mergedDateKey = none := by
  decide

/-- C6 as amended: Merged Date is present exactly when merged_at is a
non-empty string; Labels is present exactly when labels is an array
(possibly empty), each label normalized to its name whether a bare
string or a name-carrying object; a record lacking labels has no
Labels key at all, and one lacking merged_at has no Merged Date key. -/
theorem mapper_conditional_properties (mr : MergeRequest) :
    getProp (mapMrToNotionProperties mr) mergedDateKey =
      (match mr.merged_at with
       | some s => if s = "" then none else some (PropValue.date s)
       | none => none) ∧
    (mr.merged_at = none → ∀ v, (mergedDateKey, v) ∉ mapMrToNotionProperties mr) ∧
    getProp (mapMrToNotionProperties mr) labelsKey =
      (match mr.labels with
       | some ls => some (PropValue.multiSelect (ls.map labelName))
       | none => none) ∧
    (mr.labels = none → ∀ v, (labelsKey, v) ∉ mapMrToNotionProperties mr) ∧
    (∀ s, labelName (Label.str s) = s) ∧ (∀ n, labelName (Label.obj n) = n) := by
  have hm : getProp (mapMrToNotionProperties mr) mergedDateKey =
      (match mr.merged_at with
       | some s => if s = "" then none else some (PropValue.date s)
       | none => none) := by
    cases hmerged : mr.merged_at with
    | none =>
      cases hlabels : mr.labels with
      | none => simp only [mapMrToNotionProperties, hmerged, hlabels]; rfl
      | some ls => simp only [mapMrToNotionProperties, hmerged, hlabels]; rfl
    | some s =>
      by_cases hs : s = ""
      · cases hlabels : mr.labels with
        | none => simp only [mapMrToNotionProperties, hmerged, hlabels, if_pos hs]; rfl
        | some ls => simp only [mapMrToNotionProperties, hmerged, hlabels, if_pos hs]; rfl
      · cases hlabels : mr.labels with
        | none => simp only [mapMrToNotionProperties, hmerged, hlabels, if_neg hs]; rfl
        | some ls => simp only [mapMrToNotionProperties, hmerged, hlabels, if_neg hs]; rfl
  have hl : getProp (mapMrToNotionProperties mr) labelsKey =
      (match mr.labels with
       | some ls => some (PropValue.multiSelect (ls.map labelName))
       | none => none) := by
    cases hmerged : mr.merged_at with
    | none =>
      cases hlabels : mr.labels with
      | none => simp only [mapMrToNotionProperties, hmerged, hlabels]; rfl
      | some ls => simp only [mapMrToNotionProperties, hmerged, hlabels]; rfl
    | some s =>
      by_cases hs : s = ""
      · cases hlabels : mr.labels with
        | none => simp only [mapMrToNotionProperties, hmerged, hlabels, if_pos hs]; rfl
        | some ls => simp only [mapMrToNotionProperties, hmerged, hlabels, if_pos hs]; rfl
      · cases hlabels : mr.labels with
        | none => simp only [mapMrToNotionProperties, hmerged, hlabels, if_neg hs]; rfl
        | some ls => simp only [mapMrToNotionProperties, hmerged, hlabels, if_neg hs]; rfl
  refine ⟨hm, ?_, hl, ?_, fun s => rfl, fun n => rfl⟩
  · intro h v
    refine not_mem_of_getProp_none _ _ ?_ v
    rw [hm, h]
  · intro h v
    refine not_mem_of_getProp_none _ _ ?_ v
    rw [hl, h]

/-- Witness for C6 as amended: the concrete sample record has a
non-empty merged_at, so Merged Date is mapped, and no labels field, so
no Labels key is present at all. -/
theorem mapper_conditional_properties_witness :
    getProp (mapMrToNotionProperties sampleMr) mergedDateKey =
      some (PropValue.date "2024-01-05T10:00:00Z") ∧
    (∀ v, (labelsKey, v) ∉ mapMrToNotionProperties sampleMr) := by
  have h := mapper_conditional_properties sampleMr
  constructor
  · rw [h.1]
    decide
  · exact h.2.2.2.1 (by decide)

/-- Counterexample for C7: with since equal to until (the same
concrete timestamp), the range validation passes and the network fetch
runs and is returned, rather than failing with the range error the
claim requires for all since at or after until. -/
theorem date_range_equal_bounds_cex :
    listMergedMrs (Except.ok []) (some 1704067200000) (some 1704067200000) =
      ⟨Except.ok [], true⟩ ∧
    (listMergedMrs (Except.ok []) (some 1704067200000)
      (some 1704067200000)).outcome ≠ Except.error rangeErrorMsg ∧
    (listMergedMrs (Except.ok []) (some 1704067200000)
      (some 1704067200000)).networkCalled = true := by
  decide

/-- C7 as amended: the list operation fails before any network call
with the range error message exactly when since is strictly later than
until; for since at or before until (equality included) no range error
is raised and the fetch proceeds. -/
theorem date_range_validation (fetch : Except String (List MergeRequest)) (s u : Int) :
    (s > u → listMergedMrs fetch (some s) (some u) =
      ⟨Except.error rangeErrorMsg, false⟩) ∧
    (s ≤ u → listMergedMrs fetch (some s) (some u) = ⟨fetch, true⟩) := by
  constructor
  · intro h
    have hv : validateDateRange (some s) (some u) = Except.error rangeErrorMsg := by
      show (if s > u then Except.error rangeErrorMsg else Except.ok ()) = _
      rw [if_pos h]
    unfold listMergedMrs
    rw [hv]
  · intro h
    have hv : validateDateRange (some s) (some u) = Except.ok () := by
      show (if s > u then Except.error rangeErrorMsg else Except.ok ()) = _
      rw [if_neg (by omega : ¬ s > u)]
    unfold listMergedMrs
    rw [hv]

/-- Witness for C7 as amended: concrete inverted and ordered bounds. -/
theorem date_range_validation_witness :
    ((5 : Int) > 3 ∧ listMergedMrs (Except.ok []) (some 5) (some 3) =
      ⟨Except.error rangeErrorMsg, false⟩) ∧
    ((3 : Int) ≤ 5 ∧ listMergedMrs (Except.ok []) (some 3) (some 5) =
      ⟨Except.ok [], true⟩) :=
  ⟨⟨by decide, (date_range_validation (Except.ok []) 5 3).1 (by decide)⟩,
   ⟨by decide, (date_range_validation (Except.ok []) 3 5).2 (by decide)⟩⟩

/-- Counterexample for C8: in a default-configuration run the sync
job's resolved maxRetries is 3, but the store calls run under the
Notion wrapper's own default of 5 — an always-rate-limited store call
performs 5 delayed retries, more than the 3 the claim allows. -/
theorem default_run_retry_bound_cex :
    syncConfigMaxRetries none = 3 ∧
    storeCallMaxRetriesDefaultRun = 5 ∧
    (withRetry alwaysRateLimitedOp storeCallMaxRetriesDefaultRun
      DEFAULT_BASE_DELAY).delays.length = 5 ∧
    ¬ ((withRetry alwaysRateLimitedOp storeCallMaxRetriesDefaultRun
      DEFAULT_BASE_DELAY).delays.length ≤ 3) := by
  decide

/-- C8 as amended: the SyncConfig default of 3 max retries is resolved
but never forwarded to the store wrapper; every store call of a
default-configuration run is governed by the wrapper default of 5, so
a persistently rate-limited store call is retried exactly 5 times (6
invocations). -/
theorem default_run_retry_bound {α : Type} (op : Nat → Except JsError α)
    (errAt : Nat → JsError) (baseDelay : Nat)
    (hop : ∀ i, op i = Except.error (errAt i))
    (hrl : ∀ i, isRateLimited (errAt i) = true) :
    syncConfigMaxRetries none = 3 ∧
    storeCallMaxRetriesDefaultRun = 5 ∧
    (withRetry op storeCallMaxRetriesDefaultRun baseDelay).attempts = 6 ∧
    (withRetry op storeCallMaxRetriesDefaultRun baseDelay).delays.length = 5 := by
  refine ⟨rfl, rfl, ?_, ?_⟩
  · show (withRetryFrom op baseDelay 0 5).attempts = 6
    rw [withRetryFrom_allFail op baseDelay errAt hop hrl 5 0]
  · show (withRetryFrom op baseDelay 0 5).delays.length = 5
    rw [withRetryFrom_allFail op baseDelay errAt hop hrl 5 0]
    simp

/-- Witness for C8 as amended: the concrete always-rate-limited
operation under the default-run store retry bound. -/
theorem default_run_retry_bound_witness :
    syncConfigMaxRetries none = 3 ∧
    storeCallMaxRetriesDefaultRun = 5 ∧
    (withRetry alwaysRateLimitedOp storeCallMaxRetriesDefaultRun 10).attempts = 6 ∧
    (withRetry alwaysRateLimitedOp storeCallMaxRetriesDefaultRun 10).delays.length = 5 :=
  default_run_retry_bound alwaysRateLimitedOp (fun _ => rateLimitedErr) 10
    (fun _ => rfl) (fun _ => by show isRateLimited rateLimitedErr = true; decide)

/-- Counterexample for C9: a registered job whose run completes with
one per-record failure exits through the dispatch path with code 0,
not the code 1 the claim requires. -/
theorem job_dispatch_exit_code_cex :
    failedRunResult.failed > 0 ∧
    runJobExitCode true (Except.ok failedRunResult) = 0 ∧
    runJobExitCode true (Except.ok failedRunResult) ≠ 1 := by
  decide

/-- C9 as amended: through the JOB-dispatch path a registered job that
returns normally exits 0 regardless of per-record failures, and a
throwing job or unknown name exits 1; the partial-failure exit code 1
is produced only by the direct-script entry point of the sync module,
which exits 1 exactly when the returned result has failures. -/
theorem job_dispatch_exit_codes :
    (∀ r : SyncResult, runJobExitCode true (Except.ok r) = 0) ∧
    (∀ e : String, runJobExitCode true (Except.error e) = 1) ∧
    (∀ o : Except String SyncResult, runJobExitCode false o = 1) ∧
    (∀ r : SyncResult, syncMrNotionMainExitCode (Except.ok r) =
      if r.failed > 0 then 1 else 0) ∧
    (∀ e : String, syncMrNotionMainExitCode (Except.error e) = 1) :=
  ⟨fun _ => rfl, fun _ => rfl, fun _ => rfl, fun _ => rfl, fun _ => rfl⟩

end DevLog
